import Mathlib

/-!
# FireY: probe engine and schedule loop

A shallow embedding of `main.go` (the bounded-concurrency probe engine, the
one-shot entry point and the keep-an-eye schedule loop) together with the
properties established about it.

Conventions of the embedding:

* Go `int` values are `Int`; clock readings and durations are `Nat` ticks
  (nanoseconds in the program); no arithmetic here can overflow.
* Go strings are modelled by `String`.
* Calls into the standard library (`net/http`, `io`, `os`, `time`) are
  resolved by explicit oracles passed as arguments, so every definition is a
  computable function of its inputs.
* `runTests` starts one goroutine per job; it is modelled by a step function
  on the shared state (worker phases, semaphore channel, result slice) driven
  by an explicit schedule.
-/

namespace FireY

/-! ## Data model (main.go 16-63) -/

/-- Constant `checkInterval`: 30 minutes, in nanoseconds. -/
def checkInterval : Nat := 30 * 60 * 1000000000

/-- Constant `runDuration`: 24 hours, in nanoseconds. -/
def runDuration : Nat := 24 * 60 * 60 * 1000000000

/-- Struct `Config`. -/
structure Config where
  ProjectID : String
  CustomURL : String
  PathList : String
  SinglePath : String
  Methods : String
  Verbose : Bool
  OutputFile : String
  KeepAnEye : Bool
  Threads : Int
  Silence : Bool
deriving DecidableEq, Repr

/-- Struct `TestResult`. -/
structure TestResult where
  Timestamp : String
  URL : String
  Path : String
  Method : String
  StatusCode : Int
  Status : String
  BodyLength : Int
  Body : String
deriving DecidableEq, Repr

/-- The Go zero value of `TestResult`. -/
def TestResult.zero : TestResult :=
  { Timestamp := "", URL := "", Path := "", Method := "", StatusCode := 0,
    Status := "", BodyLength := 0, Body := "" }

/-- Struct `StatusInfo`; times are clock readings in ticks. -/
structure StatusInfo where
  PID : Int
  StartTime : Nat
  NextCheck : Nat
  Iteration : Nat
deriving DecidableEq, Repr

/-! ## String helpers of the Go standard library used by getPaths / getMethods -/

/-- Go `unicode.IsSpace`, by code point. -/
def isSpace (c : Char) : Bool :=
  let n := c.toNat
  n = 9 || n = 10 || n = 11 || n = 12 || n = 13 || n = 32 || n = 133 || n = 160 ||
  n = 5760 || (8192 ≤ n && n ≤ 8202) || n = 8232 || n = 8233 || n = 8239 ||
  n = 8287 || n = 12288

/-- Go `strings.TrimSpace`. -/
def trimSpace (s : String) : String :=
  String.mk ((s.data.dropWhile isSpace).reverse.dropWhile isSpace).reverse

/-- Go `strings.ToUpper`: the rune map `upper` (Go `unicode.ToUpper`) applied to
every rune of the string. -/
def toUpper (upper : Char → Char) (s : String) : String :=
  String.mk (s.data.map upper)

/-- Worker of `split`: `cur` holds the current field, reversed. -/
def splitAux (sep : Char) : List Char → List Char → List (List Char)
  | [], cur => [cur.reverse]
  | c :: cs, cur =>
    if c = sep then cur.reverse :: splitAux sep cs [] else splitAux sep cs (c :: cur)

/-- Go `strings.Split(s, sep)` for a one-character separator. -/
def split (s : String) (sep : Char) : List String :=
  (splitAux sep s.data []).map String.mk

/-- Go `strings.HasPrefix(line, "#")`. -/
def startsWithHash (line : String) : Bool :=
  match line.data with
  | c :: _ => c.toNat = 35
  | [] => false

/-! ## getPaths, getMethods, buildURL (main.go 165-211) -/

/-- Function `getPaths`. `readFile` is `os.ReadFile`; a read error ends the
process with `os.Exit(1)`, modelled by `Except.error 1`. -/
def getPaths (readFile : String → Except String String) (config : Config) :
    Except Nat (List String) :=
  let paths : List String := if config.SinglePath ≠ "" then [config.SinglePath] else []
  if config.PathList ≠ "" then
    match readFile config.PathList with
    | .error _ => .error 1
    | .ok data =>
      let lines := (split data (Char.ofNat 10)).map trimSpace
      .ok (paths ++ lines.filter (fun line => line ≠ "" && !startsWithHash line))
  else .ok paths

/-- Function `getMethods`. `upper` is `unicode.ToUpper`. -/
def getMethods (upper : Char → Char) (config : Config) : List String :=
  if config.Methods ≠ "" then
    ((split config.Methods (Char.ofNat 44)).map
      (fun m => trimSpace (toUpper upper m))).filter (fun m => m ≠ "")
  else ["GET", "POST", "PATCH", "DELETE"]

/-- Function `buildURL`; `defaultBaseURL` has its `%s` filled with the project id. -/
def buildURL (config : Config) (path : String) : String :=
  if config.CustomURL ≠ "" then config.CustomURL ++ path
  else "https://firestore.googleapis.com/v1/projects/" ++ config.ProjectID ++
    "/databases/(default)/documents" ++ path

/-! ## testEndpoint (main.go 228-288) -/

/-- Outcome of one call into the standard library: it panics with a value
(rendered as by `%v`) or returns. -/
inductive Call (α : Type) where
  | panics (v : String)
  | returns (a : α)
deriving DecidableEq, Repr

/-- What the environment does during one call of `testEndpoint`.
Later fields are consulted only if control reaches the corresponding call. -/
structure Net where
  /-- Value of `time.Now().Format(time.RFC3339)`. -/
  now : String
  /-- Call `http.NewRequest`: `some msg` is a returned error with that message. -/
  newRequest : Call (Option String)
  /-- Call `client.Do`: an error message, or the response's `StatusCode`. -/
  doRequest : Call (Except String Int)
  /-- Call `io.ReadAll(resp.Body)`: `none` is a read error, `some b` the body. -/
  readAll : Call (Option String)
  /-- The deferred `resp.Body.Close()`: `some v` when it panics with `v`. -/
  close : Option String

/-- Environment in which the request is built and sent, a response with status
code `code` arrives and `io.ReadAll` returns `read`. -/
def Net.response (now : String) (code : Int) (read : Option String)
    (close : Option String) : Net :=
  { now := now, newRequest := .returns none, doRequest := .returns (.ok code),
    readAll := .returns read, close := close }

/-- Environment in which `http.NewRequest` returns an error with message `msg`. -/
def Net.buildFails (now msg : String) : Net :=
  { now := now, newRequest := .returns (some msg), doRequest := .returns (.error msg),
    readAll := .returns none, close := none }

/-- Environment in which `client.Do` returns an error with message `msg`. -/
def Net.sendFails (now msg : String) : Net :=
  { now := now, newRequest := .returns none, doRequest := .returns (.error msg),
    readAll := .returns none, close := none }

/-- Environment in which `client.Do` panics with value `v`. -/
def Net.sendPanics (now v : String) : Net :=
  { now := now, newRequest := .returns none, doRequest := .panics v,
    readAll := .returns none, close := none }

/-- Control reaches a `return` statement of `testEndpoint`: none of
`http.NewRequest`, `client.Do`, `io.ReadAll` panics on the path taken. -/
def Net.reachesReturn (net : Net) : Bool :=
  match net.newRequest with
  | .panics _ => false
  | .returns (some _) => true
  | .returns none =>
    match net.doRequest with
    | .panics _ => false
    | .returns (.error _) => true
    | .returns (.ok _) =>
      match net.readAll with
      | .panics _ => false
      | .returns _ => true

/-- The two storage locations of an activation of `testEndpoint`: the local
variable `result`, and the function's (unnamed) result parameter, which holds
the zero value until a `return` statement stores into it. -/
structure Frame where
  result : TestResult
  ret : TestResult
deriving DecidableEq, Repr

/-- The deferred closure of lines 236-242 when `recover()` yields `v`:
it assigns to the local variable `result`. -/
def Frame.recovered (v : String) (f : Frame) : Frame :=
  { f with result := { f.result with Status := "ERROR", StatusCode := 0,
                                     Body := "Panic: " ++ v } }

/-- Statement `return result`: the local variable is copied into the result
parameter (before any deferred call runs). -/
def Frame.returning (f : Frame) : Frame :=
  { f with ret := f.result }

/-- The `switch` of lines 274-285. -/
def statusClass (code : Int) : String :=
  if 200 ≤ code ∧ code < 300 then "SUCCESS"
  else if code = 403 then "FORBIDDEN"
  else if code = 401 then "UNAUTHORIZED"
  else if code = 404 then "NOT_FOUND"
  else "ERROR"

/-- Function `testEndpoint`. Every exit path ends by handing the result
parameter `ret` of the frame to the caller; a panic is always recovered by the
deferred closure, after which the function returns normally. -/
def testEndpoint (net : Net) (url path method : String) : TestResult :=
  let f0 : Frame :=
    { result := { TestResult.zero with
                    Timestamp := net.now, URL := url, Path := path, Method := method },
      ret := TestResult.zero }
  match net.newRequest with
  | .panics v => (f0.recovered v).ret
  | .returns (some msg) =>
    ({ f0 with result := { f0.result with Status := "ERROR", Body := msg } }.returning).ret
  | .returns none =>
    match net.doRequest with
    | .panics v => (f0.recovered v).ret
    | .returns (.error msg) =>
      ({ f0 with result := { f0.result with Status := "ERROR", Body := msg } }.returning).ret
    | .returns (.ok code) =>
      -- from here on `resp.Body.Close()` is deferred; it runs before the recover closure
      let f1 : Frame := { f0 with result := { f0.result with StatusCode := code } }
      match net.readAll with
      | .panics v => (f1.recovered (net.close.getD v)).ret
      | .returns r =>
        let f2 : Frame :=
          match r with
          | none =>
            { f1 with result := { f1.result with Body := "Failed to read response body",
                                                 BodyLength := 0 } }
          | some body =>
            { f1 with result := { f1.result with Body := body,
                                                 BodyLength := body.utf8ByteSize } }
        let f3 : Frame := { f2 with result := { f2.result with Status := statusClass code } }
        let f4 : Frame := f3.returning
        match net.close with
        | none => f4.ret
        | some v => (f4.recovered v).ret

/-! ## runTests (main.go 290-330) -/

/-- The jobs in the order of the two nested `for` loops; the goroutine started
for the `i`-th job is worker `i`. -/
def jobs (paths methods : List String) : List (String × String) :=
  paths.flatMap (fun p => methods.map (fun m => (p, m)))

/-- Where a worker goroutine stands:
`waiting`  before `semaphore <- struct{}{}` has completed,
`acquired` after it and before the locked `append`,
`appended` after the `append` and before the deferred `<-semaphore`,
`done`     after the deferred receive and `wg.Done()`. -/
inductive Phase where
  | waiting
  | acquired
  | appended
  | done
deriving DecidableEq, Repr

/-- A worker is in flight while it holds a slot of the semaphore. -/
def Phase.inFlight : Phase → Bool
  | .acquired => true
  | .appended => true
  | _ => false

/-- Shared state of one call of `runTests`. -/
structure Pool where
  /-- Phase of every worker, by job index. -/
  phase : List Phase
  /-- Number of elements buffered in the channel `semaphore`. -/
  sem : Nat
  /-- The slice `results`. -/
  results : List TestResult
deriving DecidableEq, Repr

/-- An atomic step of one worker. -/
inductive Action where
  | acquire (i : Nat)
  | probe (i : Nat)
  | release (i : Nat)
deriving DecidableEq, Repr

/-- State after the two `for` loops have started every goroutine. The channel is
created with capacity `config.Threads`; the model covers `Threads ≥ 0` (for a
negative value `make` panics before any goroutine exists). -/
def Pool.init (js : List (String × String)) : Pool :=
  { phase := List.replicate js.length Phase.waiting, sem := 0, results := [] }

/-- Condition under which `wg.Wait()` returns: every worker has called `wg.Done()`. -/
def Pool.final (s : Pool) : Bool :=
  s.phase.all (fun p => p = Phase.done)

/-- Number of workers in flight. -/
def Pool.inFlight (s : Pool) : Nat :=
  s.phase.countP Phase.inFlight

/-- The value appended by worker `i` for job `(p, m)`: lines 305-306. -/
def probeResult (config : Config) (env : Nat → Net) (i : Nat) (job : String × String) :
    TestResult :=
  testEndpoint (env i) (buildURL config job.1) job.1 job.2

/-- One step of `runTests`; `none` when the action is not enabled.
* `acquire i`: the send on `semaphore` (capacity `config.Threads`) completes, which
  needs a free buffer slot;
* `probe i`: `buildURL`, `testEndpoint` and the `append` under the mutex;
* `release i`: the deferred receive from `semaphore`, then `wg.Done()`. -/
def step (config : Config) (js : List (String × String)) (env : Nat → Net) (s : Pool) :
    Action → Option Pool
  | .acquire i =>
    if s.phase[i]? = some Phase.waiting ∧ (s.sem : Int) < config.Threads then
      some { s with phase := s.phase.set i Phase.acquired, sem := s.sem + 1 }
    else none
  | .probe i =>
    match s.phase[i]?, js[i]? with
    | some Phase.acquired, some job =>
      some { s with phase := s.phase.set i Phase.appended,
                    results := s.results ++ [probeResult config env i job] }
    | _, _ => none
  | .release i =>
    if s.phase[i]? = some Phase.appended ∧ 0 < s.sem then
      some { s with phase := s.phase.set i Phase.done, sem := s.sem - 1 }
    else none

/-- Run a schedule (a sequence of actions) from a state. -/
def run (config : Config) (js : List (String × String)) (env : Nat → Net) :
    Pool → List Action → Option Pool
  | s, [] => some s
  | s, a :: rest =>
    match step config js env s a with
    | none => none
    | some t => run config js env t rest

/-- The job indices in the order in which a schedule appends their results. -/
def appendOrder : List Action → List Nat
  | [] => []
  | .probe i :: rest => i :: appendOrder rest
  | _ :: rest => appendOrder rest

/-- The worker has appended its result. -/
def Phase.hasResult : Phase → Bool
  | .appended => true
  | .done => true
  | _ => false

/-- The worker has left the waiting phase. -/
def Phase.started : Phase → Bool
  | .waiting => false
  | _ => true

/-- The worker has called `wg.Done()`. -/
def Phase.isDone : Phase → Bool
  | .done => true
  | _ => false

/-- The results a schedule appends, in order: the entry for worker `j` is the
probe result of job `j`. -/
def resultsOf (config : Config) (js : List (String × String)) (env : Nat → Net)
    (order : List Nat) : List TestResult :=
  order.map (fun j => probeResult config env j (js.getD j ("", "")))

/-! ## main, one-shot part (main.go 76-108) -/

/-- How `main` ends. -/
inductive MainResult where
  /-- Call `os.Exit(code)` before any batch is run. -/
  | exit (code : Nat)
  /-- Keep-an-eye mode: control went to `spawnBackgroundProcess` (`parent = true`)
  or to `runKeepAnEyeMode`. -/
  | keepAnEye (parent : Bool)
  /-- Function `runTests` was called on these paths and methods, the results were
  displayed and saved, and `main` returned. -/
  | ranTests (paths methods : List String)
  /-- Function `runTests` was called on these paths and methods and did not return:
  `make` panicked (negative `Threads`), or every goroutine is blocked (`Threads = 0`
  and at least one job); the Go runtime ends the process with status 2. -/
  | aborted (paths methods : List String)
deriving DecidableEq, Repr

/-- Function `main`. `upper` is `unicode.ToUpper`, `readFile` is `os.ReadFile`,
`isParent` is `isParentProcess()`. -/
def main (upper : Char → Char) (readFile : String → Except String String)
    (isParent : Bool) (config : Config) : MainResult :=
  if config.ProjectID = "" then .exit 1
  else if config.KeepAnEye then .keepAnEye isParent
  else
    match getPaths readFile config with
    | .error code => .exit code
    | .ok paths =>
      let methods := getMethods upper config
      if paths.length = 0 then .exit 1
      else if config.Threads < 0 then .aborted paths methods
      else if config.Threads = 0 ∧ (jobs paths methods).length ≠ 0 then
        .aborted paths methods
      else .ranTests paths methods

/-- Exit code of the process in one-shot mode: the argument of `os.Exit`, 0 when
`main` returns, 2 when the Go runtime ends the process. Keep-an-eye mode is not
covered. -/
def MainResult.exitCode : MainResult → Option Nat
  | .exit code => some code
  | .ranTests _ _ => some 0
  | .aborted _ _ => some 2
  | .keepAnEye _ => none

/-! ## runKeepAnEyeMode, schedule loop (main.go 454-491) -/

/-- Observable events of the schedule loop. -/
inductive Event where
  /-- Iteration `k`: header line, `runTests`, `saveResults`, `saveStatus`. -/
  | batch (k : Nat)
  /-- Call `time.Sleep(checkInterval)`. -/
  | sleep
deriving DecidableEq, Repr

/-- One entry of the trace of `runKeepAnEyeMode`: what the function does, in
program order. -/
inductive Entry where
  /-- Call `saveStatus(status)` with this value of `status`. -/
  | saved (status : StatusInfo)
  /-- The batch of iteration `k`: header line, `runTests`, `saveResults`. -/
  | ran (k : Nat)
  /-- Call `time.Sleep(checkInterval)`. -/
  | slept
deriving DecidableEq, Repr

/-- The status written by a trace entry, if it is a call of `saveStatus`. -/
def Entry.savedStatus : Entry → Option StatusInfo
  | .saved w => some w
  | _ => none

/-- The event a trace entry stands for, if it is a batch or a sleep. -/
def Entry.toEvent : Entry → Option Event
  | .ran k => some (Event.batch k)
  | .slept => some Event.sleep
  | .saved _ => none

/-- The iteration number of a batch event. -/
def Event.batchIndex : Event → Option Nat
  | .batch k => some k
  | .sleep => none

/-- State of `runKeepAnEyeMode` while it runs. -/
structure Monitor where
  /-- Value of `time.Since(startTime)`. -/
  since : Nat
  /-- Variable `iteration`. -/
  iteration : Nat
  /-- Variable `status`. -/
  status : StatusInfo
  /-- Arguments of the calls of `saveStatus` so far, oldest first. -/
  writes : List StatusInfo
  /-- Batches and sleeps so far, oldest first. -/
  events : List Event
  /-- Every `saveStatus` call, batch and sleep so far, in program order. -/
  trace : List Entry
  /-- The loop has been left (completion marker written, status file removed). -/
  completed : Bool
deriving DecidableEq, Repr

/-- One pass through lines 466-477: `iteration++`, the header line, `runTests`
and `saveResults` (together `d` ticks), then the status update and `saveStatus`
with `NextCheck = time.Now().Add(I)`. -/
def Monitor.runBatch (I d : Nat) (m : Monitor) : Monitor :=
  let iteration := m.iteration + 1
  let since := m.since + d
  let status : StatusInfo :=
    { m.status with Iteration := iteration, NextCheck := m.status.StartTime + since + I }
  { since := since, iteration := iteration, status := status,
    writes := m.writes ++ [status], events := m.events ++ [Event.batch iteration],
    trace := m.trace ++ [Entry.ran iteration, Entry.saved status],
    completed := false }

/-- Line 483: `time.Sleep(I)`. -/
def Monitor.sleep (I : Nat) (m : Monitor) : Monitor :=
  { m with since := m.since + I, events := m.events ++ [Event.sleep],
           trace := m.trace ++ [Entry.slept] }

/-- The `for` loop of lines 465-484 with total duration `D` and interval `I`.
The clock advances by `batch k` during iteration `k` and by `I` during a sleep.
`fuel` bounds the number of loop-head evaluations; when it runs out the state
reached so far is returned with `completed = false`. -/
def scheduleLoop (D I : Nat) (batch : Nat → Nat) : Nat → Monitor → Monitor
  | 0, m => m
  | fuel + 1, m =>
    if m.since < D then
      let m1 := m.runBatch I (batch (m.iteration + 1))
      if m1.since + I ≥ D then { m1 with completed := true }
      else scheduleLoop D I batch fuel (m1.sleep I)
    else { m with completed := true }

/-- State after lines 454-463: `startTime` and `iteration` are set and the first
status has been saved, in process `pid` at clock reading `t0`. -/
def Monitor.start (pid : Int) (t0 : Nat) : Monitor :=
  let status : StatusInfo := { PID := pid, StartTime := t0, NextCheck := t0, Iteration := 0 }
  { since := 0, iteration := 0, status := status, writes := [status], events := [],
    trace := [Entry.saved status], completed := false }

/-- Function `runKeepAnEyeMode` from line 454 on (paths are non-empty), started
at clock reading `t0` in process `pid`. -/
def runKeepAnEyeMode (pid : Int) (t0 D I : Nat) (batch : Nat → Nat) (fuel : Nat) : Monitor :=
  scheduleLoop D I batch fuel (Monitor.start pid t0)

/-- Number of sleeps among the events. -/
def sleepCount (es : List Event) : Nat :=
  es.count Event.sleep

/-! ## Invariants used in the proofs -/

/-- Invariant of the shared state after `n` steps. -/
structure Inv (js : List (String × String)) (s : Pool) (n : Nat) : Prop where
  len : s.phase.length = js.length
  sem : s.sem = s.phase.countP Phase.inFlight
  res : s.results.length = s.phase.countP Phase.hasResult
  steps : n = s.phase.countP Phase.started + s.phase.countP Phase.hasResult +
    s.phase.countP Phase.isDone

/-- The workers whose result has been appended are exactly the members of
`order`, each listed once. -/
structure OInv (s : Pool) (order : List Nat) : Prop where
  nodup : order.Nodup
  mem : ∀ i : Nat, i ∈ order ↔ ∃ p, s.phase[i]? = some p ∧ p.hasResult = true

/-- Invariant tying the trace to the writes and the events: the trace projects
onto both, the batches run are batch 1, ..., batch `iteration`, every batch `k` is
directly followed by the `saveStatus` call that makes the `k`-th write after the
first, and every `saveStatus` call after the first directly follows a batch. -/
structure TInv (m : Monitor) : Prop where
  hsaves : m.trace.filterMap Entry.savedStatus = m.writes
  hevents : m.trace.filterMap Entry.toEvent = m.events
  hbatches : m.events.filterMap Event.batchIndex = List.range' 1 m.iteration
  hfollows : ∀ (p k : Nat), m.trace[p]? = some (Entry.ran k) →
    ∃ w, m.trace[p + 1]? = some (Entry.saved w) ∧ m.writes[k]? = some w
  hprecedes : ∀ (p : Nat) (w : StatusInfo), m.trace[p + 1]? = some (Entry.saved w) →
    ∃ k, m.trace[p]? = some (Entry.ran k)
  hhead : ∃ w rest, m.trace = Entry.saved w :: rest

/-- Invariant of the checkpoint writes of one run started by `pid` at `t0`. -/
structure WInv (pid : Int) (t0 : Nat) (m : Monitor) : Prop where
  hlen : m.writes.length = m.iteration + 1
  hpid : m.status.PID = pid
  hstart : m.status.StartTime = t0
  heach : ∀ (k : Nat) (w : StatusInfo), m.writes[k]? = some w →
    w.Iteration = k ∧ w.PID = pid ∧ w.StartTime = t0

/-! ## Concrete inputs used to instantiate the theorems -/

/-- A one-shot configuration: project `demo`, `threads` workers, path `single`,
method list `methods`. -/
def demoConfig (threads : Int) (single methods : String) : Config :=
  { ProjectID := "demo", CustomURL := "", PathList := "", SinglePath := single,
    Methods := methods, Verbose := false, OutputFile := "", KeepAnEye := false,
    Threads := threads, Silence := true }

/-- Every probe gets an empty `200` response. -/
def demoEnv : Nat → Net :=
  fun _ => Net.response "T" 200 (some "") none

/-- As `demoEnv`, except that the request of job 0 fails in `client.Do`. -/
def demoEnvFail : Nat → Net :=
  fun j => if j = 0 then Net.sendFails "T" "connection refused" else demoEnv j

/-- Every probe panics inside `client.Do`. -/
def demoEnvPanic : Nat → Net :=
  fun _ => Net.sendPanics "T" "boom"

/-- No file can be read. -/
def noFiles : String → Except String String :=
  fun _ => .error "open: no such file or directory"

/-! ## Properties of testEndpoint -/

theorem statusClass_mem (c : Int) :
    statusClass c ∈ ["SUCCESS", "FORBIDDEN", "UNAUTHORIZED", "NOT_FOUND", "ERROR"] := by
  unfold statusClass
  split_ifs <;> simp

theorem statusClass_success (c : Int) : statusClass c = "SUCCESS" ↔ 200 ≤ c ∧ c ≤ 299 := by
  unfold statusClass
  split_ifs with h1 h2 h3 h4
  · simp only [true_iff]; omega
  all_goals
    constructor
    · intro h; exact absurd h (by decide)
    · intro h; omega

theorem statusClass_forbidden (c : Int) : statusClass c = "FORBIDDEN" ↔ c = 403 := by
  unfold statusClass
  split_ifs with h1 h2 h3 h4
  · constructor
    · intro h; exact absurd h (by decide)
    · intro h; omega
  · simp [h2]
  all_goals
    constructor
    · intro h; exact absurd h (by decide)
    · intro h; omega

theorem statusClass_unauthorized (c : Int) : statusClass c = "UNAUTHORIZED" ↔ c = 401 := by
  unfold statusClass
  split_ifs with h1 h2 h3 h4
  · constructor
    · intro h; exact absurd h (by decide)
    · intro h; omega
  · constructor
    · intro h; exact absurd h (by decide)
    · intro h; omega
  · simp [h3]
  all_goals
    constructor
    · intro h; exact absurd h (by decide)
    · intro h; omega

theorem statusClass_notFound (c : Int) : statusClass c = "NOT_FOUND" ↔ c = 404 := by
  unfold statusClass
  split_ifs with h1 h2 h3 h4
  · constructor
    · intro h; exact absurd h (by decide)
    · intro h; omega
  · constructor
    · intro h; exact absurd h (by decide)
    · intro h; omega
  · constructor
    · intro h; exact absurd h (by decide)
    · intro h; omega
  · simp [h4]
  · constructor
    · intro h; exact absurd h (by decide)
    · intro h; omega

theorem statusClass_error (c : Int) :
    statusClass c = "ERROR" ↔ ¬ (200 ≤ c ∧ c ≤ 299) ∧ c ≠ 403 ∧ c ≠ 401 ∧ c ≠ 404 := by
  unfold statusClass
  split_ifs with h1 h2 h3 h4
  · constructor
    · intro h; exact absurd h (by decide)
    · intro h; omega
  · constructor
    · intro h; exact absurd h (by decide)
    · intro h; omega
  · constructor
    · intro h; exact absurd h (by decide)
    · intro h; omega
  · constructor
    · intro h; exact absurd h (by decide)
    · intro h; omega
  · simp only [true_iff]; omega

theorem testEndpoint_response (now : String) (c : Int) (read close : Option String)
    (url path method : String) :
    testEndpoint (Net.response now c read close) url path method =
      { Timestamp := now, URL := url, Path := path, Method := method, StatusCode := c,
        Status := statusClass c,
        BodyLength := match read with
          | none => 0
          | some b => b.utf8ByteSize,
        Body := match read with
          | none => "Failed to read response body"
          | some b => b } := by
  cases read <;> cases close <;> rfl

theorem testEndpoint_zero_of_panic (net : Net) (url path method : String)
    (h : net.reachesReturn = false) : testEndpoint net url path method = TestResult.zero := by
  obtain ⟨now, nr, dr, ra, cl⟩ := net
  cases nr with
  | panics v => rfl
  | returns e =>
    cases e with
    | some msg => simp [Net.reachesReturn] at h
    | none =>
      cases dr with
      | panics v => rfl
      | returns r =>
        cases r with
        | error msg => simp [Net.reachesReturn] at h
        | ok code =>
          cases ra with
          | panics v => rfl
          | returns b => simp [Net.reachesReturn] at h

theorem testEndpoint_keeps_job (net : Net) (url path method : String)
    (h : net.reachesReturn = true) :
    (testEndpoint net url path method).URL = url ∧
    (testEndpoint net url path method).Path = path ∧
    (testEndpoint net url path method).Method = method := by
  obtain ⟨now, nr, dr, ra, cl⟩ := net
  cases nr with
  | panics v => simp [Net.reachesReturn] at h
  | returns e =>
    cases e with
    | some msg => exact ⟨rfl, rfl, rfl⟩
    | none =>
      cases dr with
      | panics v => simp [Net.reachesReturn] at h
      | returns r =>
        cases r with
        | error msg => exact ⟨rfl, rfl, rfl⟩
        | ok code =>
          cases ra with
          | panics v => simp [Net.reachesReturn] at h
          | returns b => cases b <;> cases cl <;> exact ⟨rfl, rfl, rfl⟩

/-! ## Properties of the runTests step function -/

theorem countP_set_of_getElem? (p : Phase → Bool) :
    ∀ (l : List Phase) (i : Nat) (a b : Phase), l[i]? = some a →
      (l.set i b).countP p + (if p a then 1 else 0) =
        l.countP p + (if p b then 1 else 0)
  | [], i, a, b, h => by simp at h
  | x :: l, 0, a, b, h => by
    simp only [List.getElem?_cons_zero, Option.some.injEq] at h
    subst h
    simp only [List.set_cons_zero, List.countP_cons]
    omega
  | x :: l, i + 1, a, b, h => by
    simp only [List.getElem?_cons_succ] at h
    have ih := countP_set_of_getElem? p l i a b h
    simp only [List.set_cons_succ, List.countP_cons]
    omega

theorem countP_replicate_waiting (p : Phase → Bool) (hp : p Phase.waiting = false) :
    ∀ n : Nat, (List.replicate n Phase.waiting).countP p = 0
  | 0 => by simp
  | n + 1 => by
    simp [List.replicate_succ, List.countP_cons, hp, countP_replicate_waiting p hp n]

theorem length_jobs (paths methods : List String) :
    (jobs paths methods).length = paths.length * methods.length := by
  induction paths with
  | nil => simp [jobs]
  | cons p ps ih =>
    simp only [jobs] at ih
    simp only [jobs, List.flatMap_cons, List.length_append, List.length_map, ih,
      List.length_cons]
    ring

theorem inv_init (js : List (String × String)) : Inv js (Pool.init js) 0 := by
  refine ⟨by simp [Pool.init], ?_, ?_, ?_⟩
  · simp [Pool.init, countP_replicate_waiting Phase.inFlight rfl]
  · simp [Pool.init, countP_replicate_waiting Phase.hasResult rfl]
  · simp [Pool.init, countP_replicate_waiting Phase.hasResult rfl,
      countP_replicate_waiting Phase.started rfl, countP_replicate_waiting Phase.isDone rfl]

theorem inv_step {config : Config} {js : List (String × String)} {env : Nat → Net}
    {s t : Pool} {n : Nat} {a : Action} (h : Inv js s n)
    (hs : step config js env s a = some t) : Inv js t (n + 1) := by
  obtain ⟨hlen, hsem, hres, hsteps⟩ := h
  cases a with
  | acquire i =>
    simp only [FireY.step] at hs
    split_ifs at hs with hc
    obtain ⟨hp, _⟩ := hc
    simp only [Option.some.injEq] at hs
    subst hs
    have e1 := countP_set_of_getElem? Phase.inFlight s.phase i _ Phase.acquired hp
    have e2 := countP_set_of_getElem? Phase.hasResult s.phase i _ Phase.acquired hp
    have e3 := countP_set_of_getElem? Phase.started s.phase i _ Phase.acquired hp
    have e4 := countP_set_of_getElem? Phase.isDone s.phase i _ Phase.acquired hp
    simp [Phase.inFlight, Phase.hasResult, Phase.started, Phase.isDone] at e1 e2 e3 e4
    refine ⟨by simpa using hlen, ?_, ?_, ?_⟩ <;> dsimp only <;> omega
  | probe i =>
    simp only [FireY.step] at hs
    split at hs
    · rename_i job hp hj
      simp only [Option.some.injEq] at hs
      subst hs
      have e1 := countP_set_of_getElem? Phase.inFlight s.phase i _ Phase.appended hp
      have e2 := countP_set_of_getElem? Phase.hasResult s.phase i _ Phase.appended hp
      have e3 := countP_set_of_getElem? Phase.started s.phase i _ Phase.appended hp
      have e4 := countP_set_of_getElem? Phase.isDone s.phase i _ Phase.appended hp
      simp [Phase.inFlight, Phase.hasResult, Phase.started, Phase.isDone] at e1 e2 e3 e4
      refine ⟨by simpa using hlen, ?_, ?_, ?_⟩ <;> simp only [List.length_append,
        List.length_singleton] <;> omega
    · simp at hs
  | release i =>
    simp only [FireY.step] at hs
    split_ifs at hs with hc
    obtain ⟨hp, hpos⟩ := hc
    simp only [Option.some.injEq] at hs
    subst hs
    have e1 := countP_set_of_getElem? Phase.inFlight s.phase i _ Phase.done hp
    have e2 := countP_set_of_getElem? Phase.hasResult s.phase i _ Phase.done hp
    have e3 := countP_set_of_getElem? Phase.started s.phase i _ Phase.done hp
    have e4 := countP_set_of_getElem? Phase.isDone s.phase i _ Phase.done hp
    simp [Phase.inFlight, Phase.hasResult, Phase.started, Phase.isDone] at e1 e2 e3 e4
    refine ⟨by simpa using hlen, ?_, ?_, ?_⟩ <;> dsimp only <;> omega

theorem inv_run {config : Config} {js : List (String × String)} {env : Nat → Net} :
    ∀ (sched : List Action) {s t : Pool} {n : Nat}, Inv js s n →
      run config js env s sched = some t → Inv js t (n + sched.length)
  | [], s, t, n, h, hr => by
    simp only [FireY.run, Option.some.injEq] at hr
    subst hr
    simpa using h
  | a :: rest, s, t, n, h, hr => by
    simp only [FireY.run] at hr
    split at hr
    · simp at hr
    · rename_i u hu
      have := inv_run rest (inv_step h hu) hr
      simpa [Nat.add_assoc, Nat.add_comm 1] using this

theorem sem_le_step {config : Config} {js : List (String × String)} {env : Nat → Net}
    {s t : Pool} {a : Action} (hb : (s.sem : Int) ≤ config.Threads)
    (hs : step config js env s a = some t) : (t.sem : Int) ≤ config.Threads := by
  cases a with
  | acquire i =>
    simp only [step] at hs
    split_ifs at hs with hc
    simp only [Option.some.injEq] at hs
    subst hs
    have := hc.2
    push_cast
    omega
  | probe i =>
    simp only [step] at hs
    split at hs
    · simp only [Option.some.injEq] at hs
      subst hs
      exact hb
    · simp at hs
  | release i =>
    simp only [step] at hs
    split_ifs at hs with hc
    simp only [Option.some.injEq] at hs
    subst hs
    have := hc.2
    dsimp only
    omega

theorem sem_le_run {config : Config} {js : List (String × String)} {env : Nat → Net} :
    ∀ (sched : List Action) {s t : Pool}, (s.sem : Int) ≤ config.Threads →
      run config js env s sched = some t → (t.sem : Int) ≤ config.Threads
  | [], s, t, hb, hr => by
    simp only [run, Option.some.injEq] at hr
    subst hr
    exact hb
  | a :: rest, s, t, hb, hr => by
    simp only [run] at hr
    split at hr
    · simp at hr
    · rename_i u hu
      exact sem_le_run rest (sem_le_step hb hu) hr

theorem final_iff (s : Pool) : s.final = true ↔ ∀ p ∈ s.phase, p = Phase.done := by
  simp [Pool.final, List.all_eq_true]

theorem countP_hasResult_of_final {s : Pool} (h : s.final = true) :
    s.phase.countP Phase.hasResult = s.phase.length := by
  rw [List.countP_eq_length]
  intro p hp
  rw [(final_iff s).1 h p hp]
  rfl

theorem final_results_length {js : List (String × String)} {s : Pool} {n : Nat}
    (h : Inv js s n) (hf : s.final = true) : s.results.length = js.length := by
  rw [h.res, countP_hasResult_of_final hf, h.len]

theorem steps_le {js : List (String × String)} {s : Pool} {n : Nat} (h : Inv js s n) :
    n ≤ 3 * js.length := by
  have h1 := List.countP_le_length Phase.started (l := s.phase)
  have h2 := List.countP_le_length Phase.hasResult (l := s.phase)
  have h3 := List.countP_le_length Phase.isDone (l := s.phase)
  have := h.steps
  have := h.len
  omega

theorem progress {config : Config} {js : List (String × String)} (env : Nat → Net)
    {s : Pool} {n : Nat} (h : Inv js s n) (ht : 1 ≤ config.Threads)
    (hf : s.final = false) : ∃ a t, step config js env s a = some t := by
  by_cases hA : Phase.acquired ∈ s.phase
  · obtain ⟨i, hi⟩ := List.mem_iff_getElem?.1 hA
    have hlt : i < js.length := by
      have := (List.getElem?_eq_some_iff.1 hi).1
      rw [← h.len]; exact this
    refine ⟨Action.probe i, ?_⟩
    simp [step, hi, List.getElem?_eq_getElem hlt]
  by_cases hB : Phase.appended ∈ s.phase
  · obtain ⟨i, hi⟩ := List.mem_iff_getElem?.1 hB
    have hpos : 0 < s.sem := by
      rw [h.sem]
      exact List.countP_pos_iff.2 ⟨Phase.appended, hB, rfl⟩
    refine ⟨Action.release i, ?_⟩
    simp [step, hi, hpos]
  · have hW : Phase.waiting ∈ s.phase := by
      by_contra hW
      have : s.final = true := by
        rw [final_iff]
        intro p hp
        cases p with
        | waiting => exact absurd hp hW
        | acquired => exact absurd hp hA
        | appended => exact absurd hp hB
        | done => rfl
      rw [this] at hf
      exact absurd hf (by decide)
    obtain ⟨i, hi⟩ := List.mem_iff_getElem?.1 hW
    have hz : s.sem = 0 := by
      rw [h.sem, List.countP_eq_zero]
      intro p hp
      cases p with
      | waiting => simp [Phase.inFlight]
      | acquired => exact absurd hp hA
      | appended => exact absurd hp hB
      | done => simp [Phase.inFlight]
    refine ⟨Action.acquire i, ?_⟩
    have : (s.sem : Int) < config.Threads := by rw [hz]; push_cast; omega
    simp [step, hi, this]

theorem completes {config : Config} {js : List (String × String)} (env : Nat → Net)
    (ht : 1 ≤ config.Threads) :
    ∀ (k : Nat) {s : Pool} {n : Nat}, Inv js s n → 3 * js.length - n ≤ k →
      ∃ sched t, run config js env s sched = some t ∧ t.final = true
  | 0, s, n, h, hk => by
    cases hf : s.final with
    | true => exact ⟨[], s, rfl, hf⟩
    | false =>
      obtain ⟨a, t, hs⟩ := progress env h ht hf
      have := steps_le (inv_step h hs)
      omega
  | k + 1, s, n, h, hk => by
    cases hf : s.final with
    | true => exact ⟨[], s, rfl, hf⟩
    | false =>
      obtain ⟨a, t, hs⟩ := progress env h ht hf
      have hle := steps_le (inv_step h hs)
      obtain ⟨sched, u, hr, hu⟩ := completes env ht k (inv_step h hs) (by omega)
      exact ⟨a :: sched, u, by simp [run, hs, hr], hu⟩

theorem run_results {config : Config} {js : List (String × String)} {env : Nat → Net} :
    ∀ (sched : List Action) {s t : Pool}, run config js env s sched = some t →
      t.results = s.results ++ resultsOf config js env (appendOrder sched)
  | [], s, t, hr => by
    simp only [run, Option.some.injEq] at hr
    subst hr
    simp [appendOrder, resultsOf]
  | a :: rest, s, t, hr => by
    simp only [run] at hr
    split at hr
    · simp at hr
    · rename_i u hu
      have ih := run_results rest hr
      cases a with
      | acquire i =>
        simp only [step] at hu
        split_ifs at hu
        simp only [Option.some.injEq] at hu
        subst hu
        simpa [appendOrder] using ih
      | probe i =>
        simp only [step] at hu
        split at hu
        · rename_i job hp hj
          simp only [Option.some.injEq] at hu
          subst hu
          rw [ih]
          simp [appendOrder, resultsOf, hj]
        · simp at hu
      | release i =>
        simp only [step] at hu
        split_ifs at hu
        simp only [Option.some.injEq] at hu
        subst hu
        simpa [appendOrder] using ih

theorem step_env {config : Config} {js : List (String × String)} (env env2 : Nat → Net)
    {s t s2 : Pool} {a : Action} (hp : s2.phase = s.phase) (hm : s2.sem = s.sem)
    (hs : step config js env s a = some t) :
    ∃ t2, step config js env2 s2 a = some t2 ∧ t2.phase = t.phase ∧ t2.sem = t.sem := by
  cases a with
  | acquire i =>
    simp only [step] at hs ⊢
    split_ifs at hs with hc
    simp only [Option.some.injEq] at hs
    subst hs
    rw [hp, hm, if_pos hc]
    exact ⟨_, rfl, rfl, rfl⟩
  | probe i =>
    simp only [step] at hs ⊢
    split at hs
    · rename_i job hph hj
      simp only [Option.some.injEq] at hs
      subst hs
      rw [hp, hph, hj]
      exact ⟨_, rfl, rfl, hm⟩
    · simp at hs
  | release i =>
    simp only [step] at hs ⊢
    split_ifs at hs with hc
    simp only [Option.some.injEq] at hs
    subst hs
    rw [hp, hm, if_pos hc]
    exact ⟨_, rfl, rfl, rfl⟩

theorem run_env {config : Config} {js : List (String × String)} (env env2 : Nat → Net) :
    ∀ (sched : List Action) {s t s2 : Pool}, s2.phase = s.phase → s2.sem = s.sem →
      run config js env s sched = some t →
      ∃ t2, run config js env2 s2 sched = some t2 ∧ t2.phase = t.phase ∧ t2.sem = t.sem
  | [], s, t, s2, hp, hm, hr => by
    simp only [run, Option.some.injEq] at hr
    subst hr
    exact ⟨s2, rfl, hp, hm⟩
  | a :: rest, s, t, s2, hp, hm, hr => by
    simp only [run] at hr
    split at hr
    · simp at hr
    · rename_i u hu
      obtain ⟨u2, hu2, hp2, hm2⟩ := step_env env env2 hp hm hu
      obtain ⟨t2, ht2, hq⟩ := run_env env env2 rest hp2 hm2 hr
      exact ⟨t2, by simp [run, hu2, ht2], hq⟩

theorem phase_set {l : List Phase} {i : Nat} {a : Phase} (b : Phase)
    (h : l[i]? = some a) (j : Nat) :
    (l.set i b)[j]? = if i = j then some b else l[j]? := by
  have hlt : i < l.length := (List.getElem?_eq_some_iff.1 h).1
  rw [List.getElem?_set, if_pos hlt]

theorem appendOrder_cons (a : Action) (rest : List Action) :
    appendOrder (a :: rest) = appendOrder [a] ++ appendOrder rest := by
  cases a <;> rfl

theorem oinv_init (js : List (String × String)) : OInv (Pool.init js) [] := by
  refine ⟨List.nodup_nil, ?_⟩
  intro i
  simp only [List.not_mem_nil, false_iff, not_exists, not_and, Pool.init]
  intro p hp
  have : p ∈ List.replicate js.length Phase.waiting := List.mem_iff_getElem?.2 ⟨i, hp⟩
  rw [(List.mem_replicate.1 this).2]
  simp [Phase.hasResult]

theorem oinv_step {config : Config} {js : List (String × String)} {env : Nat → Net}
    {s t : Pool} {a : Action} {order : List Nat} (h : OInv s order)
    (hs : step config js env s a = some t) : OInv t (order ++ appendOrder [a]) := by
  cases a with
  | acquire i =>
    simp only [FireY.step] at hs
    split_ifs at hs with hc
    obtain ⟨hp, _⟩ := hc
    simp only [Option.some.injEq] at hs
    subst hs
    refine ⟨by simpa [appendOrder] using h.nodup, ?_⟩
    intro j
    simp only [appendOrder, List.append_nil, phase_set _ hp]
    rw [h.mem j]
    by_cases hij : i = j
    · subst hij
      simp [hp, Phase.hasResult]
    · simp [hij]
  | probe i =>
    simp only [FireY.step] at hs
    split at hs
    · rename_i job hp hj
      simp only [Option.some.injEq] at hs
      subst hs
      have hni : i ∉ order := by
        intro hmem
        obtain ⟨p, h1, h2⟩ := (h.mem i).1 hmem
        rw [hp] at h1
        simp only [Option.some.injEq] at h1
        subst h1
        simp [Phase.hasResult] at h2
      refine ⟨?_, ?_⟩
      · simp only [appendOrder]
        exact List.Nodup.append h.nodup (List.nodup_singleton i) (by simpa using hni)
      · intro j
        simp only [appendOrder, List.mem_append, List.mem_singleton, phase_set _ hp]
        rw [h.mem j]
        by_cases hij : i = j
        · subst hij
          simp [Phase.hasResult]
        · have hji : ¬ j = i := fun e => hij e.symm
          simp [hij, hji]
    · simp at hs
  | release i =>
    simp only [FireY.step] at hs
    split_ifs at hs with hc
    obtain ⟨hp, _⟩ := hc
    simp only [Option.some.injEq] at hs
    subst hs
    refine ⟨by simpa [appendOrder] using h.nodup, ?_⟩
    intro j
    simp only [appendOrder, List.append_nil, phase_set _ hp]
    rw [h.mem j]
    by_cases hij : i = j
    · subst hij
      simp [hp, Phase.hasResult]
    · simp [hij]

theorem oinv_run {config : Config} {js : List (String × String)} {env : Nat → Net} :
    ∀ (sched : List Action) {s t : Pool} {order : List Nat}, OInv s order →
      run config js env s sched = some t → OInv t (order ++ appendOrder sched)
  | [], s, t, order, h, hr => by
    simp only [FireY.run, Option.some.injEq] at hr
    subst hr
    simpa [appendOrder] using h
  | a :: rest, s, t, order, h, hr => by
    simp only [FireY.run] at hr
    split at hr
    · simp at hr
    · rename_i u hu
      have := oinv_run rest (oinv_step h hu) hr
      rw [appendOrder_cons, ← List.append_assoc]
      exact this

theorem order_perm_range {s : Pool} {order : List Nat} (h : OInv s order)
    (hf : s.final = true) : order.Perm (List.range s.phase.length) := by
  rw [List.perm_ext_iff_of_nodup h.nodup (List.nodup_range _)]
  intro i
  rw [h.mem i, List.mem_range]
  constructor
  · rintro ⟨p, hp, _⟩
    exact (List.getElem?_eq_some_iff.1 hp).1
  · intro hi
    refine ⟨s.phase[i], List.getElem?_eq_getElem hi, ?_⟩
    rw [(final_iff s).1 hf _ (List.getElem_mem hi)]
    rfl

/-- In an execution where every probe reaches a `return` statement (no panic in
`http.NewRequest`, `client.Do` or `io.ReadAll`), the (Path, Method) pairs of the
results of a completed batch are the jobs, as multisets. -/
theorem runTests_pairs_of_no_panic (config : Config) (paths methods : List String)
    (env : Nat → Net) (hret : ∀ i, (env i).reachesReturn = true)
    (sched : List Action) (s : Pool)
    (hrun : run config (jobs paths methods) env (Pool.init (jobs paths methods)) sched =
      some s)
    (hf : s.final = true) :
    (s.results.map (fun r => (r.Path, r.Method))).Perm (jobs paths methods) := by
  have hinv := inv_run sched (inv_init (jobs paths methods)) hrun
  have ho : OInv s (appendOrder sched) := by
    simpa using oinv_run sched (oinv_init (jobs paths methods)) hrun
  have hperm := order_perm_range ho hf
  rw [hinv.len] at hperm
  have hres : s.results = resultsOf config (jobs paths methods) env (appendOrder sched) := by
    simpa [Pool.init] using run_results sched hrun
  have hrange : (List.range (jobs paths methods).length).map
      (fun j => ((probeResult config env j ((jobs paths methods).getD j ("", ""))).Path,
        (probeResult config env j ((jobs paths methods).getD j ("", ""))).Method)) =
      jobs paths methods := by
    apply List.ext_getElem
    · simp
    · intro k h1 h2
      have hk : k < (jobs paths methods).length := h2
      have hj := testEndpoint_keeps_job (env k)
        (buildURL config ((jobs paths methods)[k]).1) ((jobs paths methods)[k]).1
        ((jobs paths methods)[k]).2 (hret k)
      simp only [List.getElem_map, List.getElem_range, probeResult,
        List.getD_eq_getElem _ _ hk, hj.2.1, hj.2.2]
  rw [hres, resultsOf, List.map_map]
  exact List.Perm.trans (List.Perm.map _ hperm) (List.Perm.of_eq hrange)

/-- The guard that `main` does have: in one-shot mode with a project id, an
empty path list ends the process with exit code 1 and no batch is run. -/
theorem main_exits_without_paths (upper : Char → Char)
    (readFile : String → Except String String)
    (isParent : Bool) (config : Config) (hid : config.ProjectID ≠ "")
    (hk : config.KeepAnEye = false) (hp : getPaths readFile config = .ok []) :
    main upper readFile isParent config = MainResult.exit 1 := by
  simp [main, hid, hk, hp]

/-- How `main` ends for `-p /a` with the default methods and `-t 0` or `-t -1`,
and for `-p /a -m "," -t 0`: the first two never return from `runTests`, the last
has no job and returns. -/
theorem main_without_threads :
    main Char.toUpper noFiles true (demoConfig 0 "/a" "") =
      MainResult.aborted ["/a"] ["GET", "POST", "PATCH", "DELETE"] ∧
    main Char.toUpper noFiles true (demoConfig (-1) "/a" "") =
      MainResult.aborted ["/a"] ["GET", "POST", "PATCH", "DELETE"] ∧
    (main Char.toUpper noFiles true (demoConfig 0 "/a" "")).exitCode = some 2 ∧
    main Char.toUpper noFiles true (demoConfig 0 "/a" ",") =
      MainResult.ranTests ["/a"] [] :=
  ⟨rfl, rfl, rfl, rfl⟩

/-- With `Threads ≤ 0` no worker ever gets past the send on the semaphore: the
state of `runTests` never changes, so with at least one job `wg.Wait()` never
returns. -/
theorem runTests_blocked_without_threads (config : Config) (js : List (String × String))
    (env : Nat → Net) (ht : config.Threads ≤ 0) :
    ∀ (sched : List Action) (s : Pool),
      run config js env (Pool.init js) sched = some s →
      s = Pool.init js ∧ (js ≠ [] → s.final = false)
  | [], s, hr => by
    simp only [run, Option.some.injEq] at hr
    subst hr
    refine ⟨rfl, ?_⟩
    intro hne
    cases js with
    | nil => exact absurd rfl hne
    | cons j rest => simp [Pool.init, Pool.final, List.replicate_succ]
  | a :: rest, s, hr => by
    simp only [run] at hr
    split at hr
    · simp at hr
    · rename_i u hu
      exfalso
      have hph : ∀ (i : Nat) (p : Phase), (Pool.init js).phase[i]? = some p →
          p = Phase.waiting := by
        intro i p hp
        have : p ∈ List.replicate js.length Phase.waiting :=
          List.mem_iff_getElem?.2 ⟨i, hp⟩
        exact (List.mem_replicate.1 this).2
      cases a with
      | acquire i =>
        simp only [step] at hu
        split_ifs at hu with hc
        have h2 := hc.2
        simp only [Pool.init] at h2
        push_cast at h2
        omega
      | probe i =>
        simp only [step] at hu
        split at hu
        · rename_i job hp hj
          exact absurd (hph i _ hp) (by decide)
        · simp at hu
      | release i =>
        simp only [step] at hu
        split_ifs at hu with hc
        exact absurd (hph i _ hc.1) (by decide)

/-! ## Claims about testEndpoint and runTests -/

/-- C1: when a response with status code `c` is received (and its body read or
not), the result carries `c` and its Status is `SUCCESS` iff `200 ≤ c ≤ 299`,
`FORBIDDEN` iff `c = 403`, `UNAUTHORIZED` iff `c = 401`, `NOT_FOUND` iff `c = 404`,
and `ERROR` for every other code; the five classes are distinct, so each code gets
exactly one; the boundary codes 199, 200, 299, 300, 401, 403, 404, 500 are
classified as listed. -/
theorem C1_status_classification (now : String) (c : Int) (read close : Option String)
    (url path method : String) :
    (testEndpoint (Net.response now c read close) url path method).StatusCode = c ∧
    ((testEndpoint (Net.response now c read close) url path method).Status = "SUCCESS" ↔
      200 ≤ c ∧ c ≤ 299) ∧
    ((testEndpoint (Net.response now c read close) url path method).Status = "FORBIDDEN" ↔
      c = 403) ∧
    ((testEndpoint (Net.response now c read close) url path method).Status = "UNAUTHORIZED" ↔
      c = 401) ∧
    ((testEndpoint (Net.response now c read close) url path method).Status = "NOT_FOUND" ↔
      c = 404) ∧
    ((testEndpoint (Net.response now c read close) url path method).Status = "ERROR" ↔
      ¬ (200 ≤ c ∧ c ≤ 299) ∧ c ≠ 403 ∧ c ≠ 401 ∧ c ≠ 404) ∧
    (testEndpoint (Net.response now c read close) url path method).Status ∈
      ["SUCCESS", "FORBIDDEN", "UNAUTHORIZED", "NOT_FOUND", "ERROR"] ∧
    ["SUCCESS", "FORBIDDEN", "UNAUTHORIZED", "NOT_FOUND", "ERROR"].Nodup ∧
    (testEndpoint (Net.response now 199 read close) url path method).Status = "ERROR" ∧
    (testEndpoint (Net.response now 200 read close) url path method).Status = "SUCCESS" ∧
    (testEndpoint (Net.response now 299 read close) url path method).Status = "SUCCESS" ∧
    (testEndpoint (Net.response now 300 read close) url path method).Status = "ERROR" ∧
    (testEndpoint (Net.response now 401 read close) url path method).Status =
      "UNAUTHORIZED" ∧
    (testEndpoint (Net.response now 403 read close) url path method).Status = "FORBIDDEN" ∧
    (testEndpoint (Net.response now 404 read close) url path method).Status = "NOT_FOUND" ∧
    (testEndpoint (Net.response now 500 read close) url path method).Status = "ERROR" := by
  simp only [testEndpoint_response]
  exact ⟨trivial, statusClass_success c, statusClass_forbidden c, statusClass_unauthorized c,
    statusClass_notFound c, statusClass_error c, statusClass_mem c, by decide,
    by decide, by decide, by decide, by decide, by decide, by decide, by decide, by decide⟩

/-- C2 (evaluation at the failing input): when `client.Do` panics, the deferred
closure writes the ERROR fields into the local variable `result` only; the result
parameter is untouched, and the caller receives the zero `TestResult`: Status, URL,
Path, Method and Body are all empty. When instead the deferred `resp.Body.Close()`
panics after `return result`, the caller receives the classified response (here
`SUCCESS`), again not ERROR. -/
theorem C2_panic_result_is_not_error :
    (Frame.recovered "boom"
      { result := { TestResult.zero with
                      Timestamp := "T", URL := "https://h/docs/a", Path := "/a",
                      Method := "GET" },
        ret := TestResult.zero }).result.Status = "ERROR" ∧
    (Frame.recovered "boom"
      { result := { TestResult.zero with
                      Timestamp := "T", URL := "https://h/docs/a", Path := "/a",
                      Method := "GET" },
        ret := TestResult.zero }).ret = TestResult.zero ∧
    testEndpoint (Net.sendPanics "T" "boom") "https://h/docs/a" "/a" "GET" =
      TestResult.zero ∧
    (testEndpoint (Net.sendPanics "T" "boom") "https://h/docs/a" "/a" "GET").Status = "" ∧
    (testEndpoint (Net.sendPanics "T" "boom") "https://h/docs/a" "/a" "GET").Status ≠
      "ERROR" ∧
    (testEndpoint (Net.sendPanics "T" "boom") "https://h/docs/a" "/a" "GET").Path = "" ∧
    (testEndpoint (Net.sendPanics "T" "boom") "https://h/docs/a" "/a" "GET").Body = "" ∧
    (testEndpoint (Net.response "T" 200 (some "ok") (some "boom"))
      "https://h/docs/a" "/a" "GET").Status = "SUCCESS" := by
  decide

/-- C3: when building the request or sending it fails with error message `msg`,
`testEndpoint` returns Status `ERROR`, StatusCode 0, BodyLength 0, Body `msg`
(non-empty when `msg` is) and the URL, Path and Method it was given. In
`runTests`, under any schedule, replacing what happens to job `i` (for instance by
such a failure) leaves the schedule executable, the number of results unchanged,
and every result produced for another job unchanged. -/
theorem C3_transport_failure (config : Config) (paths methods : List String)
    (env env2 : Nat → Net) (i : Nat) (sched : List Action) (s : Pool)
    (now msg url path method : String)
    (henv : ∀ j, j ≠ i → env2 j = env j)
    (hrun : run config (jobs paths methods) env (Pool.init (jobs paths methods)) sched =
      some s) :
    testEndpoint (Net.buildFails now msg) url path method =
      { Timestamp := now, URL := url, Path := path, Method := method, StatusCode := 0,
        Status := "ERROR", BodyLength := 0, Body := msg } ∧
    testEndpoint (Net.sendFails now msg) url path method =
      { Timestamp := now, URL := url, Path := path, Method := method, StatusCode := 0,
        Status := "ERROR", BodyLength := 0, Body := msg } ∧
    (msg ≠ "" → (testEndpoint (Net.buildFails now msg) url path method).Body ≠ "" ∧
      (testEndpoint (Net.sendFails now msg) url path method).Body ≠ "") ∧
    s.results = resultsOf config (jobs paths methods) env (appendOrder sched) ∧
    ∃ s2, run config (jobs paths methods) env2 (Pool.init (jobs paths methods)) sched =
        some s2 ∧
      s2.results = resultsOf config (jobs paths methods) env2 (appendOrder sched) ∧
      s2.phase = s.phase ∧
      s2.results.length = s.results.length ∧
      ∀ k j : Nat, (appendOrder sched)[k]? = some j → j ≠ i →
        s2.results[k]? = s.results[k]? := by
  refine ⟨rfl, rfl, fun h => ⟨h, h⟩, ?_, ?_⟩
  · simpa [Pool.init] using run_results sched hrun
  · obtain ⟨s2, h2, hp, _⟩ := run_env env env2 sched rfl rfl hrun
    have r1 : s.results = resultsOf config (jobs paths methods) env (appendOrder sched) := by
      simpa [Pool.init] using run_results sched hrun
    have r2 : s2.results = resultsOf config (jobs paths methods) env2 (appendOrder sched) := by
      simpa [Pool.init] using run_results sched h2
    refine ⟨s2, h2, r2, hp, ?_, ?_⟩
    · rw [r1, r2]; simp [resultsOf]
    · intro k j hk hj
      rw [r1, r2]
      simp only [resultsOf, List.getElem?_map, hk, Option.map_some', probeResult, henv j hj]

/-- C3, instantiated: two jobs, both run to completion; with the request of
job 0 refused, the result of job 1 is the same. -/
theorem C3_transport_failure_witness :
    (∀ j, j ≠ 0 → demoEnvFail j = demoEnv j) ∧
    run (demoConfig 1 "" "") (jobs ["/a", "/b"] ["GET"]) demoEnv
      (Pool.init (jobs ["/a", "/b"] ["GET"]))
      [.acquire 1, .probe 1, .release 1, .acquire 0, .probe 0, .release 0] =
      some { phase := [Phase.done, Phase.done], sem := 0,
             results := resultsOf (demoConfig 1 "" "") (jobs ["/a", "/b"] ["GET"]) demoEnv
               [1, 0] } ∧
    ∃ s2, run (demoConfig 1 "" "") (jobs ["/a", "/b"] ["GET"]) demoEnvFail
        (Pool.init (jobs ["/a", "/b"] ["GET"]))
        [.acquire 1, .probe 1, .release 1, .acquire 0, .probe 0, .release 0] = some s2 ∧
      s2.results.length = 2 ∧
      s2.results[0]? = (resultsOf (demoConfig 1 "" "") (jobs ["/a", "/b"] ["GET"]) demoEnv
        [1, 0])[0]? := by
  have hE : ∀ j, j ≠ 0 → demoEnvFail j = demoEnv j := by
    intro j hj
    simp [demoEnvFail, hj]
  have hR : run (demoConfig 1 "" "") (jobs ["/a", "/b"] ["GET"]) demoEnv
      (Pool.init (jobs ["/a", "/b"] ["GET"]))
      [.acquire 1, .probe 1, .release 1, .acquire 0, .probe 0, .release 0] =
      some { phase := [Phase.done, Phase.done], sem := 0,
             results := resultsOf (demoConfig 1 "" "") (jobs ["/a", "/b"] ["GET"]) demoEnv
               [1, 0] } := by decide
  obtain ⟨_, _, _, _, s2, h2, _, _, hl, hk⟩ :=
    C3_transport_failure (demoConfig 1 "" "") ["/a", "/b"] ["GET"] demoEnv demoEnvFail 0
      [.acquire 1, .probe 1, .release 1, .acquire 0, .probe 0, .release 0] _
      "T" "connection refused" "u" "/a" "GET" hE hR
  exact ⟨hE, hR, s2, h2, by simpa [resultsOf] using hl, hk 0 1 rfl (by decide)⟩

/-- C4: with `Threads ≥ 1`, for all paths and methods (empty or not) and whatever
the probes do, every execution of `runTests` has at most three steps per job, is
never stuck before all workers are done, can always be continued to the point
where `wg.Wait()` returns, and whenever that point is reached the slice `results`
has exactly `len(paths) * len(methods)` elements. -/
theorem C4_result_count (config : Config) (paths methods : List String) (env : Nat → Net)
    (ht : 1 ≤ config.Threads) (sched : List Action) (s : Pool)
    (hrun : run config (jobs paths methods) env (Pool.init (jobs paths methods)) sched =
      some s) :
    sched.length ≤ 3 * (paths.length * methods.length) ∧
    (s.final = true → s.results.length = paths.length * methods.length) ∧
    (s.final = false → ∃ a t, step config (jobs paths methods) env s a = some t) ∧
    ∃ rest t, run config (jobs paths methods) env s rest = some t ∧ t.final = true ∧
      t.results.length = paths.length * methods.length := by
  have hinv := inv_run sched (inv_init (jobs paths methods)) hrun
  refine ⟨?_, ?_, ?_, ?_⟩
  · have := steps_le hinv
    rw [length_jobs] at this
    omega
  · intro hf
    rw [final_results_length hinv hf, length_jobs]
  · intro hf
    exact progress env hinv ht hf
  · obtain ⟨rest, t, hr, hf⟩ := completes env ht _ hinv (Nat.le_refl _)
    have hinv2 := inv_run rest hinv hr
    exact ⟨rest, t, hr, hf, by rw [final_results_length hinv2 hf, length_jobs]⟩

/-- C4, instantiated: two paths, two methods, two threads, no step taken yet. -/
theorem C4_result_count_witness :
    (1 : Int) ≤ (demoConfig 2 "" "").Threads ∧
    ∃ rest t, run (demoConfig 2 "" "") (jobs ["/a", "/b"] ["GET", "POST"]) demoEnvFail
        (Pool.init (jobs ["/a", "/b"] ["GET", "POST"])) rest = some t ∧
      t.final = true ∧ t.results.length = 2 * 2 :=
  ⟨by decide,
    (C4_result_count (demoConfig 2 "" "") ["/a", "/b"] ["GET", "POST"] demoEnvFail
      (by decide) [] _ rfl).2.2.2⟩

/-- C5 (evaluation at the failing input): one path `/a`, one method `GET`, one
thread, and `client.Do` panics. The batch completes with one result, whose
(Path, Method) pair is `("", "")` and not the job's pair `("/a", "GET")`: the
recovered panic makes `testEndpoint` return the zero `TestResult`. -/
theorem C5_panicking_job_loses_its_pair :
    jobs ["/a"] ["GET"] = [("/a", "GET")] ∧
    (run (demoConfig 1 "" "") (jobs ["/a"] ["GET"]) demoEnvPanic
        (Pool.init (jobs ["/a"] ["GET"])) [.acquire 0, .probe 0, .release 0]).map
      (fun s => (s.final, s.results.map (fun r => (r.Path, r.Method)))) =
      some (true, [("", "")]) := by
  decide

/-- C6 (evaluation at the failing input): `-i demo -p /a -m ","`. The method list
resolves to no method (whatever the rune map of `strings.ToUpper`), so there is no
job; `main` does not exit with an error but calls `runTests` on the empty job list
and returns, i.e. the exit code is 0. -/
theorem C6_empty_methods_exit_zero :
    ∀ upper : Char → Char,
      getMethods upper (demoConfig 1 "/a" ",") = [] ∧
      getPaths noFiles (demoConfig 1 "/a" ",") = .ok ["/a"] ∧
      jobs ["/a"] [] = [] ∧
      main upper noFiles true (demoConfig 1 "/a" ",") = MainResult.ranTests ["/a"] [] ∧
      (main upper noFiles true (demoConfig 1 "/a" ",")).exitCode = some 0 :=
  fun _ => ⟨rfl, rfl, by decide, rfl, rfl⟩

/-- C7: with `Threads = N ≥ 1`, in every state `runTests` can reach, the number of
workers in flight (holding a semaphore slot: acquired and not yet released)
equals the number of elements buffered in the semaphore channel and is at most
`N`; and a worker calls `testEndpoint` (the probe step) only while in flight. -/
theorem C7_in_flight_bound (config : Config) (paths methods : List String)
    (env : Nat → Net) (ht : 1 ≤ config.Threads) (sched : List Action) (s : Pool)
    (hrun : run config (jobs paths methods) env (Pool.init (jobs paths methods)) sched =
      some s) :
    s.inFlight = s.sem ∧
    (s.inFlight : Int) ≤ config.Threads ∧
    ∀ i t, step config (jobs paths methods) env s (Action.probe i) = some t →
      (s.phase[i]?).map Phase.inFlight = some true := by
  have hinv := inv_run sched (inv_init (jobs paths methods)) hrun
  have hb : (s.sem : Int) ≤ config.Threads :=
    sem_le_run sched (by simp only [Pool.init]; push_cast; omega) hrun
  refine ⟨hinv.sem.symm, ?_, ?_⟩
  · rw [Pool.inFlight, ← hinv.sem]
    exact hb
  · intro i t hs
    simp only [step] at hs
    split at hs
    · rename_i job hp hj
      simp [hp, Phase.inFlight]
    · simp at hs

/-- C7, instantiated: four jobs, two threads; after two workers have acquired a
slot, two are in flight, and a third cannot acquire. -/
theorem C7_in_flight_bound_witness :
    (1 : Int) ≤ (demoConfig 2 "" "").Threads ∧
    run (demoConfig 2 "" "") (jobs ["/a", "/b"] ["GET", "POST"]) demoEnv
      (Pool.init (jobs ["/a", "/b"] ["GET", "POST"])) [.acquire 0, .acquire 3] =
      some { phase := [Phase.acquired, Phase.waiting, Phase.waiting, Phase.acquired],
             sem := 2, results := [] } ∧
    step (demoConfig 2 "" "") (jobs ["/a", "/b"] ["GET", "POST"]) demoEnv
      { phase := [Phase.acquired, Phase.waiting, Phase.waiting, Phase.acquired],
        sem := 2, results := [] } (.acquire 1) = none ∧
    ((Pool.inFlight
      { phase := [Phase.acquired, Phase.waiting, Phase.waiting, Phase.acquired],
        sem := 2, results := [] } : Nat) : Int) ≤ (demoConfig 2 "" "").Threads :=
  ⟨by decide, by decide, by decide,
    (C7_in_flight_bound (demoConfig 2 "" "") ["/a", "/b"] ["GET", "POST"] demoEnv
      (by decide) [.acquire 0, .acquire 3] _ (by decide)).2.1⟩

/-! ## Properties of the schedule loop -/

theorem winv_start (pid : Int) (t0 : Nat) : WInv pid t0 (Monitor.start pid t0) := by
  refine ⟨rfl, rfl, rfl, ?_⟩
  intro k w hk
  simp only [Monitor.start] at hk
  cases k with
  | zero =>
    simp only [List.getElem?_cons_zero, Option.some.injEq] at hk
    subst hk
    exact ⟨rfl, rfl, rfl⟩
  | succ k => simp at hk

theorem winv_runBatch {pid : Int} {t0 : Nat} {m : Monitor} (h : WInv pid t0 m)
    (I d : Nat) : WInv pid t0 (m.runBatch I d) := by
  refine ⟨by simp [Monitor.runBatch, h.hlen], h.hpid, h.hstart, ?_⟩
  intro k w hk
  simp only [Monitor.runBatch] at hk
  by_cases hlt : k < m.writes.length
  · rw [List.getElem?_append_left hlt] at hk
    exact h.heach k w hk
  · have hge : m.writes.length ≤ k := Nat.le_of_not_lt hlt
    rw [List.getElem?_append_right hge] at hk
    have hz : k - m.writes.length = 0 := by
      by_contra hne
      rw [List.getElem?_eq_none (by simp only [List.length_singleton]; omega)] at hk
      exact absurd hk (by simp)
    rw [hz] at hk
    simp only [List.getElem?_cons_zero, Option.some.injEq] at hk
    subst hk
    have := h.hlen
    exact ⟨by dsimp only; omega, h.hpid, h.hstart⟩

theorem winv_loop {pid : Int} {t0 : Nat} (D I : Nat) (batch : Nat → Nat) :
    ∀ (fuel : Nat) {m : Monitor}, WInv pid t0 m → WInv pid t0 (scheduleLoop D I batch fuel m)
  | 0, m, h => by simpa [scheduleLoop] using h
  | fuel + 1, m, h => by
    simp only [scheduleLoop]
    split_ifs with h1 h2
    · have hb := winv_runBatch h I (batch (m.iteration + 1))
      exact ⟨hb.hlen, hb.hpid, hb.hstart, hb.heach⟩
    · have hb := winv_runBatch h I (batch (m.iteration + 1))
      exact winv_loop D I batch fuel ⟨hb.hlen, hb.hpid, hb.hstart, hb.heach⟩
    · exact ⟨h.hlen, h.hpid, h.hstart, h.heach⟩

theorem getElem?_append_one {α : Type} (l : List α) (a : α) (p : Nat) :
    (l ++ [a])[p]? =
      if p < l.length then l[p]? else if p = l.length then some a else none := by
  by_cases h : p < l.length
  · rw [if_pos h, List.getElem?_append_left h]
  · rw [if_neg h, List.getElem?_append_right (Nat.le_of_not_lt h)]
    by_cases h2 : p = l.length
    · rw [if_pos h2, h2, Nat.sub_self]
      rfl
    · rw [if_neg h2]
      apply List.getElem?_eq_none
      simp only [List.length_singleton]
      omega

theorem getElem?_append_two {α : Type} (l : List α) (a b : α) (p : Nat) :
    (l ++ [a, b])[p]? =
      if p < l.length then l[p]?
      else if p = l.length then some a
      else if p = l.length + 1 then some b else none := by
  by_cases h : p < l.length
  · rw [if_pos h, List.getElem?_append_left h]
  · rw [if_neg h, List.getElem?_append_right (Nat.le_of_not_lt h)]
    by_cases h2 : p = l.length
    · rw [if_pos h2, h2, Nat.sub_self]
      rfl
    · rw [if_neg h2]
      by_cases h3 : p = l.length + 1
      · rw [if_pos h3, h3, Nat.add_sub_cancel_left]
        rfl
      · rw [if_neg h3]
        apply List.getElem?_eq_none
        simp only [List.length_cons, List.length_nil]
        omega

theorem tinv_start (pid : Int) (t0 : Nat) : TInv (Monitor.start pid t0) := by
  refine ⟨rfl, rfl, rfl, ?_, ?_, ⟨_, [], rfl⟩⟩
  · intro p k hp
    simp only [Monitor.start] at hp
    cases p with
    | zero => simp at hp
    | succ p => simp at hp
  · intro p w hp
    simp only [Monitor.start] at hp
    simp at hp

theorem tinv_runBatch {pid : Int} {t0 : Nat} {m : Monitor} (hw : WInv pid t0 m)
    (h : TInv m) (I d : Nat) : TInv (m.runBatch I d) := by
  have hlen := hw.hlen
  obtain ⟨w0, rest0, hhd⟩ := h.hhead
  refine ⟨?_, ?_, ?_, ?_, ?_, ⟨w0, rest0 ++ [Entry.ran (m.iteration + 1),
    Entry.saved { m.status with Iteration := m.iteration + 1,
                                NextCheck := m.status.StartTime + (m.since + d) + I }],
    by simp [Monitor.runBatch, hhd]⟩⟩
  · simp [Monitor.runBatch, List.filterMap_append, Entry.savedStatus, h.hsaves]
  · simp [Monitor.runBatch, List.filterMap_append, Entry.toEvent, h.hevents]
  · simp only [Monitor.runBatch, List.filterMap_append, h.hbatches, List.range'_concat]
    simp [Event.batchIndex, Nat.add_comm]
  · intro p k hp
    simp only [Monitor.runBatch] at hp ⊢
    rw [getElem?_append_two] at hp ⊢
    by_cases h1 : p < m.trace.length
    · rw [if_pos h1] at hp
      obtain ⟨w, hw1, hw2⟩ := h.hfollows p k hp
      have h2 : p + 1 < m.trace.length := (List.getElem?_eq_some_iff.1 hw1).1
      have h3 : k < m.writes.length := (List.getElem?_eq_some_iff.1 hw2).1
      refine ⟨w, ?_, ?_⟩
      · rw [if_pos h2]; exact hw1
      · rw [List.getElem?_append_left h3]; exact hw2
    · rw [if_neg h1] at hp
      by_cases h2 : p = m.trace.length
      · rw [if_pos h2] at hp
        simp only [Option.some.injEq, Entry.ran.injEq] at hp
        subst hp
        refine ⟨{ m.status with Iteration := m.iteration + 1,
                                NextCheck := m.status.StartTime + (m.since + d) + I },
          ?_, ?_⟩
        · rw [if_neg (by omega), if_neg (by omega), if_pos (by omega)]
        · rw [← hlen, List.getElem?_append_right (Nat.le_refl _), Nat.sub_self]
          rfl
      · rw [if_neg h2] at hp
        by_cases h3 : p = m.trace.length + 1
        · rw [if_pos h3] at hp
          simp at hp
        · rw [if_neg h3] at hp
          simp at hp
  · intro p w hp
    simp only [Monitor.runBatch] at hp ⊢
    rw [getElem?_append_two] at hp ⊢
    by_cases h1 : p + 1 < m.trace.length
    · rw [if_pos h1] at hp
      rw [if_pos (by omega)]
      exact h.hprecedes p w hp
    · rw [if_neg h1] at hp
      by_cases h2 : p + 1 = m.trace.length
      · rw [if_pos h2] at hp
        simp at hp
      · rw [if_neg h2] at hp
        by_cases h3 : p + 1 = m.trace.length + 1
        · rw [if_neg (by omega), if_pos (by omega)]
          exact ⟨_, rfl⟩
        · rw [if_neg h3] at hp
          simp at hp

theorem tinv_sleep {m : Monitor} (h : TInv m) (I : Nat) : TInv (m.sleep I) := by
  obtain ⟨w0, rest0, hhd⟩ := h.hhead
  refine ⟨?_, ?_, ?_, ?_, ?_, ⟨w0, rest0 ++ [Entry.slept], by simp [Monitor.sleep, hhd]⟩⟩
  · simp [Monitor.sleep, List.filterMap_append, Entry.savedStatus, h.hsaves]
  · simp [Monitor.sleep, List.filterMap_append, Entry.toEvent, h.hevents]
  · simp [Monitor.sleep, List.filterMap_append, Event.batchIndex, h.hbatches]
  · intro p k hp
    simp only [Monitor.sleep] at hp ⊢
    rw [getElem?_append_one] at hp ⊢
    by_cases h1 : p < m.trace.length
    · rw [if_pos h1] at hp
      obtain ⟨w, hw1, hw2⟩ := h.hfollows p k hp
      have h2 : p + 1 < m.trace.length := (List.getElem?_eq_some_iff.1 hw1).1
      exact ⟨w, by rw [if_pos h2]; exact hw1, hw2⟩
    · rw [if_neg h1] at hp
      by_cases h2 : p = m.trace.length
      · rw [if_pos h2] at hp
        simp at hp
      · rw [if_neg h2] at hp
        simp at hp
  · intro p w hp
    simp only [Monitor.sleep] at hp ⊢
    rw [getElem?_append_one] at hp ⊢
    by_cases h1 : p + 1 < m.trace.length
    · rw [if_pos h1] at hp
      rw [if_pos (by omega)]
      exact h.hprecedes p w hp
    · rw [if_neg h1] at hp
      by_cases h2 : p + 1 = m.trace.length
      · rw [if_pos h2] at hp
        simp at hp
      · rw [if_neg h2] at hp
        simp at hp

theorem winv_sleep {pid : Int} {t0 : Nat} {m : Monitor} (h : WInv pid t0 m) (I : Nat) :
    WInv pid t0 (m.sleep I) :=
  ⟨h.hlen, h.hpid, h.hstart, h.heach⟩

theorem tinv_loop {pid : Int} {t0 : Nat} (D I : Nat) (batch : Nat → Nat) :
    ∀ (fuel : Nat) {m : Monitor}, WInv pid t0 m → TInv m →
      TInv (scheduleLoop D I batch fuel m)
  | 0, m, _, h => by simpa [scheduleLoop] using h
  | fuel + 1, m, hw, h => by
    simp only [scheduleLoop]
    have hb := tinv_runBatch hw h I (batch (m.iteration + 1))
    have hwb := winv_runBatch hw I (batch (m.iteration + 1))
    split_ifs with h1 h2
    · exact ⟨hb.hsaves, hb.hevents, hb.hbatches, hb.hfollows, hb.hprecedes, hb.hhead⟩
    · exact tinv_loop D I batch fuel (winv_sleep hwb I) (tinv_sleep hb I)
    · exact ⟨h.hsaves, h.hevents, h.hbatches, h.hfollows, h.hprecedes, h.hhead⟩

theorem scheduleLoop_bound (D I : Nat) (batch : Nat → Nat) :
    ∀ (fuel : Nat) (m : Monitor), m.since < D → m.iteration * I ≤ m.since →
      D ≤ m.since + fuel * I →
      (scheduleLoop D I batch fuel m).completed = true ∧
      m.iteration + 1 ≤ (scheduleLoop D I batch fuel m).iteration ∧
      (scheduleLoop D I batch fuel m).iteration * I < D + I
  | 0, m, h1, _, h3 => by omega
  | fuel + 1, m, h1, h2, h3 => by
    have e1 : (m.iteration + 1) * I = m.iteration * I + I := by
      rw [Nat.add_mul, Nat.one_mul]
    have e2 : (fuel + 1) * I = fuel * I + I := by rw [Nat.add_mul, Nat.one_mul]
    simp only [scheduleLoop, if_pos h1]
    split_ifs with hb
    · refine ⟨rfl, Nat.le_refl _, ?_⟩
      simp only [Monitor.runBatch]
      omega
    · simp only [Monitor.runBatch] at hb
      obtain ⟨c1, c2, c3⟩ := scheduleLoop_bound D I batch fuel
        ((m.runBatch I (batch (m.iteration + 1))).sleep I)
        (by simp only [Monitor.runBatch, Monitor.sleep]; omega)
        (by simp only [Monitor.runBatch, Monitor.sleep]; omega)
        (by simp only [Monitor.runBatch, Monitor.sleep]; omega)
      have hit : ((m.runBatch I (batch (m.iteration + 1))).sleep I).iteration =
          m.iteration + 1 := rfl
      rw [hit] at c2
      exact ⟨c1, by omega, c3⟩

/-- The events of a run of `d + 1` iterations numbered from `j + 1`, separated by
sleeps. -/
theorem intersperse_facts : ∀ (d j : Nat),
    sleepCount (List.intersperse Event.sleep
      ((List.range' j (d + 1)).map (fun k => Event.batch (k + 1)))) = d ∧
    (List.intersperse Event.sleep
      ((List.range' j (d + 1)).map (fun k => Event.batch (k + 1)))).getLast? =
      some (Event.batch (j + d + 1))
  | 0, j => by simp [sleepCount, List.range']
  | d + 1, j => by
    obtain ⟨h1, h2⟩ := intersperse_facts d (j + 1)
    have e : List.range' j (d + 1 + 1) = j :: (j + 1) :: List.range' (j + 1 + 1) d := by
      simp [List.range']
    have e2 : List.range' (j + 1) (d + 1) = (j + 1) :: List.range' (j + 1 + 1) d := by
      simp [List.range']
    rw [e2] at h1 h2
    rw [e]
    simp only [List.map_cons, List.intersperse] at h1 h2 ⊢
    refine ⟨?_, ?_⟩
    · simp only [sleepCount, List.count_cons] at h1 ⊢
      simp at h1 ⊢
      omega
    · rw [List.getLast?_cons_cons, List.getLast?_cons, h2]
      simp only [Option.getD_some, Option.some.injEq, Event.batch.injEq]
      omega

theorem scheduleLoop_exact (I n : Nat) (hI : 0 < I) :
    ∀ (d fuel : Nat) (m : Monitor), d + 1 ≤ fuel → m.iteration + d + 1 = n →
      m.since = m.iteration * I →
      (scheduleLoop (n * I) I (fun _ => 0) fuel m).completed = true ∧
      (scheduleLoop (n * I) I (fun _ => 0) fuel m).iteration = n ∧
      (scheduleLoop (n * I) I (fun _ => 0) fuel m).events =
        m.events ++ List.intersperse Event.sleep
          ((List.range' m.iteration (d + 1)).map (fun k => Event.batch (k + 1)))
  | _, 0, m, hf, _, _ => by omega
  | 0, fuel + 1, m, _, hn, hs => by
    have en : n * I = m.iteration * I + I := by
      rw [← hn, Nat.add_zero, Nat.add_mul, Nat.one_mul]
    have hlt : m.since < n * I := by omega
    simp only [scheduleLoop, if_pos hlt]
    split_ifs with hb
    · refine ⟨rfl, ?_, ?_⟩
      · simp only [Monitor.runBatch]; omega
      · simp [Monitor.runBatch, List.range', List.intersperse]
    · simp only [Monitor.runBatch] at hb
      omega
  | d + 1, fuel + 1, m, hf, hn, hs => by
    have en : n * I = m.iteration * I + d * I + I + I := by
      rw [← hn]
      simp only [Nat.add_mul, Nat.one_mul]
      omega
    have hlt : m.since < n * I := by omega
    simp only [scheduleLoop, if_pos hlt]
    split_ifs with hb
    · simp only [Monitor.runBatch] at hb
      have : 0 < d * I + I := by omega
      omega
    · have e1 : (m.iteration + 1) * I = m.iteration * I + I := by
        rw [Nat.add_mul, Nat.one_mul]
      obtain ⟨c1, c2, c3⟩ := scheduleLoop_exact I n hI d fuel
        ((m.runBatch I 0).sleep I) (by omega)
        (by simp only [Monitor.runBatch, Monitor.sleep]; omega)
        (by simp only [Monitor.runBatch, Monitor.sleep]; omega)
      refine ⟨c1, c2, ?_⟩
      rw [c3]
      have e : List.range' m.iteration (d + 1 + 1) =
          m.iteration :: (m.iteration + 1) :: List.range' (m.iteration + 1 + 1) d := by
        simp [List.range']
      have e2 : List.range' (m.iteration + 1) (d + 1) =
          (m.iteration + 1) :: List.range' (m.iteration + 1 + 1) d := by
        simp [List.range']
      simp only [Monitor.runBatch, Monitor.sleep, e, e2, List.map_cons, List.intersperse,
        List.append_assoc, List.cons_append, List.nil_append]

/-- Once the loop has completed, more fuel does not change its result. -/
theorem scheduleLoop_stable (D I : Nat) (batch : Nat → Nat) :
    ∀ (fuel : Nat) (m : Monitor), m.completed = false →
      (scheduleLoop D I batch fuel m).completed = true →
      scheduleLoop D I batch (fuel + 1) m = scheduleLoop D I batch fuel m
  | 0, m, h0, h => by
    simp only [scheduleLoop] at h
    rw [h0] at h
    exact absurd h (by decide)
  | fuel + 1, m, _, h => by
    rw [scheduleLoop] at h ⊢
    conv => rhs; rw [scheduleLoop]
    by_cases h1 : m.since < D
    · simp only [if_pos h1] at h ⊢
      by_cases h2 : (m.runBatch I (batch (m.iteration + 1))).since + I ≥ D
      · simp only [if_pos h2]
      · simp only [if_neg h2] at h ⊢
        exact scheduleLoop_stable D I batch fuel _ rfl h
    · simp only [if_neg h1]

/-- With the constants of the program (24 hours, every 30 minutes) and batches that
take no time, the loop runs 48 iterations and sleeps 47 times. -/
theorem runKeepAnEyeMode_constants (pid : Int) (t0 : Nat) :
    (runKeepAnEyeMode pid t0 runDuration checkInterval (fun _ => 0) 48).completed = true ∧
    (runKeepAnEyeMode pid t0 runDuration checkInterval (fun _ => 0) 48).iteration = 48 ∧
    sleepCount (runKeepAnEyeMode pid t0 runDuration checkInterval (fun _ => 0) 48).events = 47 := by
  have hd : runDuration = 48 * checkInterval := by decide
  have key := scheduleLoop_exact checkInterval 48 (by decide) 47 48
    (Monitor.start pid t0)
    (by decide) (by simp [Monitor.start]) (by simp [Monitor.start])
  rw [← hd] at key
  obtain ⟨k1, k2, k3⟩ := key
  have k3b : (runKeepAnEyeMode pid t0 runDuration checkInterval (fun _ => 0) 48).events =
      List.intersperse Event.sleep
        ((List.range' 0 (47 + 1)).map (fun k => Event.batch (k + 1))) := by
    simpa [runKeepAnEyeMode, Monitor.start] using k3
  exact ⟨k1, k2, by rw [k3b, (intersperse_facts 47 0).1]⟩

/-! ## Claims about the schedule loop -/

/-- C8: with interval `I > 0`, total duration `D > 0` an exact multiple of `I`, and
batches that take no time, the loop of `runKeepAnEyeMode` completes (for any fuel
of at least `D / I`) after exactly `D / I = ⌈D / I⌉` iterations; its events are
batch 1, sleep, batch 2, ..., sleep, batch `D / I`: `D / I - 1` sleeps, none after
the last batch. -/
theorem C8_exact_multiple (pid : Int) (t0 D I fuel : Nat) (hI : 0 < I) (hD : 0 < D)
    (hdiv : I ∣ D) (hfuel : D / I ≤ fuel) :
    (runKeepAnEyeMode pid t0 D I (fun _ => 0) fuel).completed = true ∧
    (runKeepAnEyeMode pid t0 D I (fun _ => 0) fuel).iteration = D / I ∧
    D / I = (D + I - 1) / I ∧
    (runKeepAnEyeMode pid t0 D I (fun _ => 0) fuel).events =
      List.intersperse Event.sleep
        ((List.range' 0 (D / I)).map (fun k => Event.batch (k + 1))) ∧
    sleepCount (runKeepAnEyeMode pid t0 D I (fun _ => 0) fuel).events = D / I - 1 ∧
    (runKeepAnEyeMode pid t0 D I (fun _ => 0) fuel).events.getLast? =
      some (Event.batch (D / I)) := by
  obtain ⟨n, rfl⟩ := hdiv
  have hn : 0 < n := by
    rcases Nat.eq_zero_or_pos n with h | h
    · subst h; simp at hD
    · exact h
  have hq : I * n / I = n := Nat.mul_div_cancel_left n hI
  have hc : (I * n + I - 1) / I = n := by
    have : I * n + I - 1 = (I - 1) + I * n := by omega
    rw [this, Nat.add_mul_div_left _ _ hI, Nat.div_eq_of_lt (by omega)]
    omega
  rw [hq] at hfuel ⊢
  rw [hc]
  obtain ⟨d, rfl⟩ : ∃ d, n = d + 1 := ⟨n - 1, by omega⟩
  have key := scheduleLoop_exact I (d + 1) hI d fuel
    (Monitor.start pid t0)
    hfuel (by simp [Monitor.start]) (by simp [Monitor.start])
  rw [Nat.mul_comm] at key
  obtain ⟨k1, k2, k3⟩ := key
  have k3b : (runKeepAnEyeMode pid t0 (I * (d + 1)) I (fun _ => 0) fuel).events =
      List.intersperse Event.sleep
        ((List.range' 0 (d + 1)).map (fun k => Event.batch (k + 1))) := by
    simpa [runKeepAnEyeMode, Monitor.start] using k3
  refine ⟨k1, k2, rfl, k3b, ?_, ?_⟩
  · rw [k3b, (intersperse_facts d 0).1]
    omega
  · rw [k3b, (intersperse_facts d 0).2]
    simp

/-- C8, instantiated at `D = 60`, `I = 30` (minutes): exactly 2 iterations and
exactly 1 sleep, between the two batches. -/
theorem C8_exact_multiple_witness :
    0 < 30 ∧ 0 < 60 ∧ 30 ∣ 60 ∧
    (runKeepAnEyeMode 1 0 60 30 (fun _ => 0) 2).completed = true ∧
    (runKeepAnEyeMode 1 0 60 30 (fun _ => 0) 2).iteration = 2 ∧
    (runKeepAnEyeMode 1 0 60 30 (fun _ => 0) 2).events =
      [Event.batch 1, Event.sleep, Event.batch 2] ∧
    sleepCount (runKeepAnEyeMode 1 0 60 30 (fun _ => 0) 2).events = 1 := by
  have h := C8_exact_multiple 1 0 60 30 2 (by decide) (by decide) (by decide) (by decide)
  exact ⟨by decide, by decide, by decide, h.1, h.2.1, by decide, h.2.2.2.2.1⟩

/-- C9: at every point of a run of `runKeepAnEyeMode` (any duration, interval and
batch times, any number of loop-head evaluations), the sequence of values passed
to `saveStatus` has Iteration fields 0, 1, 2, ..., `iteration` in this order (so
the first is 0, each next one is exactly 1 more, and the sequence is
non-decreasing), and every one of them carries the PID and StartTime of the run.
The writes are tied to the batches through the trace of the run: the batches run
so far are batch 1, ..., batch `iteration`; the trace starts with the first write
(Iteration 0); every batch `k` in the trace is directly followed by a `saveStatus`
call, which is the `k`-th write after the first and has Iteration `k`; and every
later `saveStatus` call directly follows a batch. For `D = 60`, `I = 30` and
zero-time batches the trace is: write 0, batch 1, write 1, sleep, batch 2, write 2. -/
theorem C9_checkpoint_iterations (pid : Int) (t0 D I : Nat) (batch : Nat → Nat)
    (fuel : Nat) :
    (runKeepAnEyeMode pid t0 D I batch fuel).writes.map (fun w => w.Iteration) =
      List.range ((runKeepAnEyeMode pid t0 D I batch fuel).iteration + 1) ∧
    ((runKeepAnEyeMode pid t0 D I batch fuel).writes[0]?).map (fun w => w.Iteration) =
      some 0 ∧
    (∀ (k : Nat) (w w2 : StatusInfo),
      (runKeepAnEyeMode pid t0 D I batch fuel).writes[k]? = some w →
      (runKeepAnEyeMode pid t0 D I batch fuel).writes[k + 1]? = some w2 →
      w.Iteration = k ∧ w2.Iteration = w.Iteration + 1) ∧
    ((runKeepAnEyeMode pid t0 D I batch fuel).writes.map (fun w => w.Iteration)).Pairwise
      (fun a b => a ≤ b) ∧
    (∀ w ∈ (runKeepAnEyeMode pid t0 D I batch fuel).writes,
      w.PID = pid ∧ w.StartTime = t0) ∧
    (runKeepAnEyeMode pid t0 D I batch fuel).writes.length =
      (runKeepAnEyeMode pid t0 D I batch fuel).iteration + 1 ∧
    (runKeepAnEyeMode pid t0 D I batch fuel).events.filterMap Event.batchIndex =
      List.range' 1 (runKeepAnEyeMode pid t0 D I batch fuel).iteration ∧
    (runKeepAnEyeMode pid t0 D I batch fuel).trace.filterMap Entry.savedStatus =
      (runKeepAnEyeMode pid t0 D I batch fuel).writes ∧
    (runKeepAnEyeMode pid t0 D I batch fuel).trace.filterMap Entry.toEvent =
      (runKeepAnEyeMode pid t0 D I batch fuel).events ∧
    (∃ w, (runKeepAnEyeMode pid t0 D I batch fuel).trace.head? = some (Entry.saved w) ∧
      w.Iteration = 0) ∧
    (∀ (p k : Nat),
      (runKeepAnEyeMode pid t0 D I batch fuel).trace[p]? = some (Entry.ran k) →
      ∃ w, (runKeepAnEyeMode pid t0 D I batch fuel).trace[p + 1]? = some (Entry.saved w) ∧
        (runKeepAnEyeMode pid t0 D I batch fuel).writes[k]? = some w ∧
        w.Iteration = k) ∧
    (∀ (p : Nat) (w : StatusInfo),
      (runKeepAnEyeMode pid t0 D I batch fuel).trace[p + 1]? = some (Entry.saved w) →
      ∃ k, (runKeepAnEyeMode pid t0 D I batch fuel).trace[p]? = some (Entry.ran k)) ∧
    (runKeepAnEyeMode pid t0 60 30 (fun _ => 0) 2).trace =
      [Entry.saved { PID := pid, StartTime := t0, NextCheck := t0, Iteration := 0 },
       Entry.ran 1,
       Entry.saved { PID := pid, StartTime := t0, NextCheck := t0 + 30, Iteration := 1 },
       Entry.slept,
       Entry.ran 2,
       Entry.saved { PID := pid, StartTime := t0, NextCheck := t0 + 60, Iteration := 2 }] := by
  have hinv : WInv pid t0 (runKeepAnEyeMode pid t0 D I batch fuel) :=
    winv_loop D I batch fuel (winv_start pid t0)
  have htr : TInv (runKeepAnEyeMode pid t0 D I batch fuel) :=
    tinv_loop D I batch fuel (winv_start pid t0) (tinv_start pid t0)
  have hmap : (runKeepAnEyeMode pid t0 D I batch fuel).writes.map (fun w => w.Iteration) =
      List.range ((runKeepAnEyeMode pid t0 D I batch fuel).iteration + 1) := by
    apply List.ext_getElem?
    intro k
    rw [List.getElem?_map]
    by_cases hk : k < (runKeepAnEyeMode pid t0 D I batch fuel).writes.length
    · have hk2 : k < (runKeepAnEyeMode pid t0 D I batch fuel).iteration + 1 := by
        rw [← hinv.hlen]; exact hk
      rw [List.getElem?_eq_getElem hk, List.getElem?_range hk2]
      simp only [Option.map_some', Option.some.injEq]
      exact (hinv.heach k _ (List.getElem?_eq_getElem hk)).1
    · have hk2 : (runKeepAnEyeMode pid t0 D I batch fuel).iteration + 1 ≤ k := by
        rw [← hinv.hlen]; omega
      rw [List.getElem?_eq_none (by omega), List.getElem?_eq_none (by simpa using hk2)]
      rfl
  have h0 : 0 < (runKeepAnEyeMode pid t0 D I batch fuel).writes.length := by
    rw [hinv.hlen]; omega
  refine ⟨hmap, ?_, ?_, ?_, ?_, hinv.hlen, htr.hbatches, htr.hsaves, htr.hevents, ?_, ?_,
    htr.hprecedes, rfl⟩
  · rw [List.getElem?_eq_getElem h0]
    simp only [Option.map_some', Option.some.injEq]
    exact (hinv.heach 0 _ (List.getElem?_eq_getElem h0)).1
  · intro k w w2 h1 h2
    have a := (hinv.heach k w h1).1
    have b := (hinv.heach (k + 1) w2 h2).1
    exact ⟨a, by omega⟩
  · rw [hmap]
    exact List.Pairwise.imp (fun h => Nat.le_of_lt h) (List.pairwise_lt_range _)
  · intro w hw
    obtain ⟨k, hk⟩ := List.mem_iff_getElem?.1 hw
    exact (hinv.heach k w hk).2
  · obtain ⟨w, rest, hhd⟩ := htr.hhead
    refine ⟨w, by rw [hhd]; rfl, ?_⟩
    have hs := htr.hsaves
    rw [hhd] at hs
    simp only [List.filterMap_cons, Entry.savedStatus] at hs
    exact (hinv.heach 0 w (by rw [← hs]; simp)).1
  · intro p k hp
    obtain ⟨w, h1, h2⟩ := htr.hfollows p k hp
    exact ⟨w, h1, h2, (hinv.heach k w h2).1⟩

/-- C10: with `D > 0`, `I > 0` and arbitrary batch durations, the loop completes
(for any fuel of at least `⌈D / I⌉`) and the number `n` of iterations it has run
satisfies `1 ≤ n ≤ ⌈D / I⌉`. The upper bound need not be reached: with `D = 60`,
`I = 30` and a first batch of 30, the loop runs once although `⌈D / I⌉ = 2`. -/
theorem C10_iteration_bounds (pid : Int) (t0 D I : Nat) (batch : Nat → Nat) (fuel : Nat)
    (hD : 0 < D) (hI : 0 < I) (hfuel : (D + I - 1) / I ≤ fuel) :
    (runKeepAnEyeMode pid t0 D I batch fuel).completed = true ∧
    1 ≤ (runKeepAnEyeMode pid t0 D I batch fuel).iteration ∧
    (runKeepAnEyeMode pid t0 D I batch fuel).iteration ≤ (D + I - 1) / I ∧
    (runKeepAnEyeMode pid t0 60 30 (fun _ => 30) 2).completed = true ∧
    (runKeepAnEyeMode pid t0 60 30 (fun _ => 30) 2).iteration = 1 ∧
    (60 + 30 - 1) / 30 = 2 := by
  have hf : D ≤ 0 + fuel * I := by
    have h1 : D + I - 1 < (D + I - 1) / I * I + I := by
      have := Nat.lt_mul_div_succ (D + I - 1) hI
      rw [Nat.mul_add, Nat.mul_one, Nat.mul_comm] at this
      exact this
    have h2 : (D + I - 1) / I * I ≤ fuel * I := Nat.mul_le_mul_right _ hfuel
    omega
  obtain ⟨c1, c2, c3⟩ := scheduleLoop_bound D I batch fuel
    (Monitor.start pid t0)
    hD (by simp [Monitor.start]) hf
  refine ⟨c1, c2, ?_, rfl, rfl, by decide⟩
  rw [Nat.le_div_iff_mul_le hI]
  have : (runKeepAnEyeMode pid t0 D I batch fuel).iteration * I < D + I := c3
  omega

/-- C10, instantiated at `D = 60`, `I = 30` with batches of 7: two iterations. -/
theorem C10_iteration_bounds_witness :
    0 < 60 ∧ 0 < 30 ∧ (60 + 30 - 1) / 30 ≤ 5 ∧
    (runKeepAnEyeMode 1 0 60 30 (fun _ => 7) 5).completed = true ∧
    1 ≤ (runKeepAnEyeMode 1 0 60 30 (fun _ => 7) 5).iteration ∧
    (runKeepAnEyeMode 1 0 60 30 (fun _ => 7) 5).iteration ≤ (60 + 30 - 1) / 30 ∧
    (runKeepAnEyeMode 1 0 60 30 (fun _ => 7) 5).iteration = 2 := by
  have h := C10_iteration_bounds 1 0 60 30 (fun _ => 7) 5 (by decide) (by decide) (by decide)
  exact ⟨by decide, by decide, by decide, h.1, h.2.1, h.2.2.1, by decide⟩

end FireY
